import Mathlib

set_option maxRecDepth 8000

/-!
Verification of the zenbot agent pipeline: think-tag parser
(client/src/utils/parseThink.ts), intent router / query refiner /
orchestrator (server agentService), retrieval gateway (lanceClient.ts,
tools.ts), context assembler (buildRAGPrompt) and the message archive
(db/sqlite.ts), shallowly embedded in Lean.
-/

/-! ## Substring toolkit over lists of characters -/


/-- Characters of the reasoning-open marker `<think>`. -/
def OPENd : List Char := "<think>".data

/-- Characters of the reasoning-close marker `</think>`. -/
def CLOSEd : List Char := "</think>".data

/-- Split a haystack at the first occurrence of `n`: returns the part
before the occurrence and the part after it (the needle removed), or
`none` when `n` does not occur.  This models `String.prototype.indexOf`
followed by the two `slice` calls of the TypeScript parser. -/
def splitAtSub (n : List Char) : List Char → Option (List Char × List Char)
  | [] => if n.isPrefixOf ([] : List Char) then some ([], []) else none
  | c :: rest =>
    if n.isPrefixOf (c :: rest) then some ([], (c :: rest).drop n.length)
    else
      match splitAtSub n rest with
      | none => none
      | some (b, a) => some (c :: b, a)

/-- Boolean substring test, modelling `String.prototype.includes`. -/
def containsBL (n h : List Char) : Bool := (splitAtSub n h).isSome

/-- Index of the last occurrence of `n` in the haystack, modelling
`String.prototype.lastIndexOf` (with `none` for `-1`). -/
def lastIndexOfSub (n : List Char) : List Char → Option Nat
  | [] => if n.isPrefixOf ([] : List Char) then some 0 else none
  | c :: rest =>
    match lastIndexOfSub n rest with
    | some i => some (i + 1)
    | none => if n.isPrefixOf (c :: rest) then some 0 else none

/-! ## Think-tag parser (client/src/utils/parseThink.ts) -/


/-- Result record of `parseThinkContent`, mirroring `ParseThinkResult`. -/
structure ParseThinkResult where
  response : String
  thinkingParts : List String
  isInsideThink : Bool
deriving DecidableEq, Repr

/-- Fuel-indexed core scan of the TypeScript `while` loop: find the next
`<think>`, accumulate the text before it into the visible response, then
find the matching `</think>`; an unterminated open marker leaves the tail
in the `currentThink` component (third component).  The fuel only bounds
the recursion; `parseCore` always supplies enough. -/
def parseCoreF : Nat → List Char → List Char × List (List Char) × List Char
  | 0, h => (h, [], [])
  | fuel + 1, h =>
    match splitAtSub OPENd h with
    | none => (h, [], [])
    | some (before, after) =>
      match splitAtSub CLOSEd after with
      | none => (before, [], after)
      | some (think, rest) =>
        let r := parseCoreF fuel rest
        (before ++ r.1, think :: r.2.1, r.2.2)

/-- Core scan with sufficient fuel. -/
def parseCore (h : List Char) : List Char × List (List Char) × List Char :=
  parseCoreF (h.length + 1) h

/-- Model of JavaScript `String.prototype.trim`: drop whitespace from both
ends of the character list. -/
def trimChars (l : List Char) : List Char :=
  ((l.dropWhile Char.isWhitespace).reverse.dropWhile Char.isWhitespace).reverse

/-- Lean model of `parseThinkContent` from parseThink.ts: scans the raw
buffer, splits it into the visible response (trimmed at the end, as the
source does with `response.trim()`), the list of think segments pushed on
each close marker plus the trailing unterminated segment when nonempty,
and the `isInsideThink` flag computed from the last marker positions. -/
def parseThinkContent (raw : String) : ParseThinkResult :=
  let r := parseCore raw.data
  { response := String.mk (trimChars r.1)
    thinkingParts :=
      r.2.1.map String.mk ++ (if r.2.2.length > 0 then [String.mk r.2.2] else [])
    isInsideThink :=
      match lastIndexOfSub OPENd raw.data, lastIndexOfSub CLOSEd raw.data with
      | none, _ => false
      | some _, none => true
      | some o, some c => decide (c < o) }

/-- Concatenation of one visible/think segment pair list followed by a
final visible tail, with explicit markers: the canonical balanced buffer. -/
def renderSegs : List (List Char × List Char) → List Char → List Char
  | [], vf => vf
  | (v, t) :: rest, vf => v ++ OPENd ++ t ++ CLOSEd ++ renderSegs rest vf

/-- Concatenation of the non-reasoning (visible) portions of a balanced
buffer, in order. -/
def visConcat : List (List Char × List Char) → List Char → List Char
  | [], vf => vf
  | (v, _) :: rest, vf => v ++ visConcat rest vf

/-! ## Intent router, query refiner and orchestrator (agentService.ts) -/


/-- JavaScript `trim()` at the `String` level (kernel-computable). -/
def trimS (s : String) : String := String.mk (trimChars s.data)

/-- JavaScript `toUpperCase()` (ASCII, as produced by the model labels). -/
def toUpperS (s : String) : String := String.mk (s.data.map Char.toUpper)

/-- JavaScript `toLowerCase()` (ASCII). -/
def toLowerS (s : String) : String := String.mk (s.data.map Char.toLower)

/-- JavaScript `String.prototype.includes` at the `String` level. -/
def containsS (n h : String) : Bool := containsBL n.data h.data

/-- JavaScript `String.prototype.startsWith` at the `String` level. -/
def startsWithS (n h : String) : Bool := n.data.isPrefixOf h.data

/-- Normalization the router applies to the model reply before matching:
`typeof content === "string" ? content.trim().toUpperCase() : "OFF_TOPIC"`.
A `none` stands for non-string content. -/
def normalizeRouterOutput (c : Option String) : String :=
  match c with
  | some s => toUpperS (trimS s)
  | none => "OFF_TOPIC"

/-- Keyword test of the router fallback:
`query.toLowerCase().includes("hasinthaka") || ... ("zenlise") || ... ("zenbot")`. -/
def hasDomainKeyword (q : String) : Bool :=
  containsS "hasinthaka" (toLowerS q) || containsS "zenlise" (toLowerS q) ||
    containsS "zenbot" (toLowerS q)

/-- Label decision of `AgentService.classifyIntent` on a model reply that
was delivered: substring match on the normalized output first, then the
keyword fallback, then the `OFF_TOPIC` default. -/
def routerLabel (q : String) (c : Option String) : String :=
  if containsS "GREETING" (normalizeRouterOutput c) then "GREETING"
  else if containsS "KNOWLEDGE" (normalizeRouterOutput c) then "KNOWLEDGE"
  else if hasDomainKeyword q then "KNOWLEDGE"
  else "OFF_TOPIC"

/-- Model of `AgentService.classifyIntent`.  The model call is the
`Except`-valued argument: `.error ()` is a thrown model invocation (the
source has no try/catch here, so the error propagates), `.ok c` carries
the reply content (`none` for non-string content). -/
def classifyIntent (q : String) (m : Except Unit (Option String)) :
    Except Unit String :=
  match m with
  | .error e => .error e
  | .ok c => .ok (routerLabel q c)

/-- Model of `AgentService.generateSearchQuery`: string content is trimmed
and returned, non-string content falls back to the original query, and a
thrown model call propagates (no try/catch in the source). -/
def generateSearchQuery (q : String) (m : Except Unit (Option String)) :
    Except Unit String :=
  match m with
  | .error e => .error e
  | .ok (some s) => .ok (trimS s)
  | .ok none => .ok q

/-- Outcome of one model streaming call: the tokens it emitted, and
whether it then raised (tokens already handed to the sink stay emitted). -/
structure StreamOut where
  toks : List String
  fails : Bool

/-- Per-turn external-call outcomes feeding the orchestrator: router
invocation, refiner invocation, knowledge-tool call (a function of the
search query used) and the three streaming generators (the response
generator is a function of the context it is given). -/
structure AgentEnv where
  classifyOut : Except Unit (Option String)
  refineOut : Except Unit (Option String)
  toolOut : String → Except Unit String
  greetOut : StreamOut
  refuseOut : StreamOut
  respondOut : String → StreamOut

instance exceptDecEq {e a : Type} [DecidableEq e] [DecidableEq a] :
    DecidableEq (Except e a)
  | .error x, .error y =>
    if h : x = y then .isTrue (by rw [h])
    else .isFalse (by intro hh; injection hh; exact h (by assumption))
  | .ok x, .ok y =>
    if h : x = y then .isTrue (by rw [h])
    else .isFalse (by intro hh; injection hh; exact h (by assumption))
  | .error _, .ok _ => .isFalse (by intro hh; exact Except.noConfusion hh)
  | .ok _, .error _ => .isFalse (by intro hh; exact Except.noConfusion hh)

/-- Which terminal generation step ran, and with which arguments. -/
inductive GenCall
  | greeting (q : String)
  | refusal (q : String)
  | response (q ctx : String)
deriving DecidableEq, Repr

/-- Observable outcome of one orchestrator turn: every token pushed
through the sink in order, the returned (or thrown) value, and the
generation calls that were started. -/
structure RunOut where
  tokens : List String
  result : Except Unit String
  gens : List GenCall
deriving DecidableEq, Repr

/-- Apology string emitted by the orchestrator-level catch. -/
def apologyMsg : String :=
  "I apologize, but I encountered an error while processing your request."

/-- Tokens emitted before intent classification. -/
def thinkPrefix : List String := ["<think>", "Analyzing user intent..."]

/-- Tokens the catch block of `runAgentStream` emits. -/
def catchTokens : List String :=
  [" Error processing request.", "</think>\n\n", apologyMsg]

/-- In-band no-grounding test applied to the knowledge-tool result:
`searchResult.includes("No relevant information") || searchResult.startsWith("Error")`. -/
def sentinelHit (s : String) : Bool :=
  containsS "No relevant information" s || startsWithS "Error" s

/-- Model of `AgentService.runAgentStream` (thinking mode).  The think
markers and progress notes are emitted, intent classification happens
BEFORE the try block (so a throw there escapes, `.error ()`), and every
failure inside the try block is turned into the catch tokens plus the
apology return value. -/
def runAgentStream (env : AgentEnv) (q : String) : RunOut :=
  match classifyIntent q env.classifyOut with
  | .error e => ⟨thinkPrefix, .error e, []⟩
  | .ok intent =>
    if intent = "GREETING" then
      if env.greetOut.fails then
        ⟨thinkPrefix ++ [" Intent identified: " ++ intent ++ ".",
          " User is greeting. Preparing response...", "</think>\n\n"] ++
          env.greetOut.toks ++ catchTokens, .ok apologyMsg, [GenCall.greeting q]⟩
      else
        ⟨thinkPrefix ++ [" Intent identified: " ++ intent ++ ".",
          " User is greeting. Preparing response...", "</think>\n\n"] ++
          env.greetOut.toks, .ok "", [GenCall.greeting q]⟩
    else if intent = "OFF_TOPIC" then
      if env.refuseOut.fails then
        ⟨thinkPrefix ++ [" Intent identified: " ++ intent ++ ".",
          " User is off-topic. Refusing...", "</think>\n\n"] ++
          env.refuseOut.toks ++ catchTokens, .ok apologyMsg, [GenCall.refusal q]⟩
      else
        ⟨thinkPrefix ++ [" Intent identified: " ++ intent ++ ".",
          " User is off-topic. Refusing...", "</think>\n\n"] ++
          env.refuseOut.toks, .ok "", [GenCall.refusal q]⟩
    else
      match generateSearchQuery q env.refineOut with
      | .error _ =>
        ⟨thinkPrefix ++ [" Intent identified: " ++ intent ++ ".",
          " Refining search query..."] ++ catchTokens, .ok apologyMsg, []⟩
      | .ok rq =>
        match env.toolOut rq with
        | .error _ =>
          ⟨thinkPrefix ++ [" Intent identified: " ++ intent ++ ".",
            " Refining search query...",
            " Query: \"" ++ rq ++ "\"...", " Searching..."] ++ catchTokens,
            .ok apologyMsg, []⟩
        | .ok sr =>
          if sentinelHit sr then
            if (env.respondOut "").fails then
              ⟨thinkPrefix ++ [" Intent identified: " ++ intent ++ ".",
                " Refining search query...",
                " Query: \"" ++ rq ++ "\"...", " Searching...",
                " No relevant info found.", "</think>\n\n"] ++
                (env.respondOut "").toks ++ catchTokens,
                .ok apologyMsg, [GenCall.response q ""]⟩
            else
              ⟨thinkPrefix ++ [" Intent identified: " ++ intent ++ ".",
                " Refining search query...",
                " Query: \"" ++ rq ++ "\"...", " Searching...",
                " No relevant info found.", "</think>\n\n"] ++
                (env.respondOut "").toks, .ok "", [GenCall.response q ""]⟩
          else
            if (env.respondOut sr).fails then
              ⟨thinkPrefix ++ [" Intent identified: " ++ intent ++ ".",
                " Refining search query...",
                " Query: \"" ++ rq ++ "\"...", " Searching...",
                " Found relevant information.", "</think>\n\n"] ++
                (env.respondOut sr).toks ++ catchTokens,
                .ok apologyMsg, [GenCall.response q sr]⟩
            else
              ⟨thinkPrefix ++ [" Intent identified: " ++ intent ++ ".",
                " Refining search query...",
                " Query: \"" ++ rq ++ "\"...", " Searching...",
                " Found relevant information.", "</think>\n\n"] ++
                (env.respondOut sr).toks, .ok "", [GenCall.response q sr]⟩

/-- Model of `AgentService.runFastStream` (fast mode): no routing, no
think markers; the knowledge tool is called with the raw query and the
try/catch turns any failure into the single apology token and return. -/
def runFastStream (env : AgentEnv) (q : String) : RunOut :=
  match env.toolOut q with
  | .error _ => ⟨[apologyMsg], .ok apologyMsg, []⟩
  | .ok sr =>
    if sentinelHit sr then
      if (env.respondOut "").fails then
        ⟨(env.respondOut "").toks ++ [apologyMsg], .ok apologyMsg,
          [GenCall.response q ""]⟩
      else
        ⟨(env.respondOut "").toks, .ok "", [GenCall.response q ""]⟩
    else
      if (env.respondOut sr).fails then
        ⟨(env.respondOut sr).toks ++ [apologyMsg], .ok apologyMsg,
          [GenCall.response q sr]⟩
      else
        ⟨(env.respondOut sr).toks, .ok "", [GenCall.response q sr]⟩

/-- Whether the work inside the orchestrator try block fails for the given
classified intent, in terms of the per-turn outcomes. -/
def postClassifyFails (env : AgentEnv) (q intent : String) : Bool :=
  if intent = "GREETING" then env.greetOut.fails
  else if intent = "OFF_TOPIC" then env.refuseOut.fails
  else
    match generateSearchQuery q env.refineOut with
    | .error _ => true
    | .ok rq =>
      match env.toolOut rq with
      | .error _ => true
      | .ok sr => (env.respondOut (if sentinelHit sr then "" else sr)).fails

/-! ## Retrieval gateway (lanceClient.ts) and knowledge tool (tools.ts) -/


/-- One raw nearest-neighbour hit as returned by the vector store:
`_distance` may be absent (the source guards with `dist || 0`), and the
stored `title` may be missing or empty.  The `created_at`/`updated_at`
metadata fields are carried by the store but unused by the properties
verified here. -/
structure RawHit where
  id : String
  text : String
  title : Option String
  distance : Option ℚ

/-- Converted search result (`SearchResult` in lanceClient.ts), with the
similarity `score` attached. -/
structure SearchResultM where
  id : String
  text : String
  title : Option String
  score : ℚ
deriving DecidableEq, Repr

/-- Distance-to-similarity conversion of `queryDocuments`:
`const l2_dist = (dist || 0); const score = Math.max(0, 1 - (l2_dist * l2_dist) / 2)`. -/
def hitScore (r : RawHit) : ℚ :=
  max 0 (1 - r.distance.getD 0 * r.distance.getD 0 / 2)

/-- Build the `SearchResult` record for one raw hit. -/
def convertHit (r : RawHit) : SearchResultM :=
  ⟨r.id, r.text, r.title, hitScore r⟩

/-- Conversion-and-filter loop body of `queryDocuments`:
`if (score < minSimilarity) continue; searchResults.push(...)`. -/
def processHits (minSim : ℚ) : List RawHit → List SearchResultM
  | [] => []
  | r :: rest =>
    if hitScore r < minSim then processHits minSim rest
    else convertHit r :: processHits minSim rest

/-- Module-level readiness state of lanceClient.ts: the `db` connection,
the embedding pipeline and the opened `table` (each a nullable global). -/
structure LanceState where
  dbReady : Bool
  embedReady : Bool
  tableReady : Bool

/-- Errors the gateway can raise: the `generateEmbedding` throw when the
pipeline is not loaded, and a failed `initLanceDB` re-initialization. -/
inductive LanceErr
  | embeddingNotInitialized
  | initFailed
deriving DecidableEq, Repr

/-- Error message text attached by the source throws. -/
def lanceErrMsg : LanceErr → String
  | .embeddingNotInitialized => "Embedding model not initialized"
  | .initFailed => "LanceDB initialization failed"

/-- Model of `queryDocuments`: with no opened table it returns the EMPTY
list (`if (!table) return [];`) — not an error; otherwise it embeds (which
throws when the pipeline is missing) and converts the store's hits. -/
def queryDocumentsM (st : LanceState) (hits : List RawHit) (minSim : ℚ) :
    Except LanceErr (List SearchResultM) :=
  if st.tableReady = false then .ok []
  else if st.embedReady = false then .error .embeddingNotInitialized
  else .ok (processHits minSim hits)

/-- Model of `deleteDocument`: with no opened table it silently returns
(`if (!table) return;`); the external delete itself also returns unit. -/
def deleteDocumentM (st : LanceState) (_id : String) : Except LanceErr Unit :=
  if st.tableReady = false then .ok () else .ok ()

/-- Model of `addDocument` (the upsert): with no connection it first
re-runs `initLanceDB` (whose failure propagates), then embeds and writes. -/
def addDocumentM (st : LanceState) (initOk : Bool) : Except LanceErr Unit :=
  if st.dbReady then
    if st.embedReady then .ok () else .error .embeddingNotInitialized
  else if initOk then .ok ()
  else .error .initFailed

/-- Singleton knowledge configuration (db/sqlite.ts). -/
structure KnowledgeConfigM where
  maxDocuments : Nat
  similarityThreshold : ℚ
  maxContextLength : Nat

/-- JavaScript `r.metadata?.title || "Untitled"`. -/
def titleOrUntitled (t : Option String) : String :=
  match t with
  | none => "Untitled"
  | some s => if s = "" then "Untitled" else s

/-- Per-document block of the knowledge-tool result:
`[Title: ...]\nContent: ...`. -/
def formatDoc (r : SearchResultM) : String :=
  "[Title: " ++ titleOrUntitled r.title ++ "]\nContent: " ++ r.text

/-- JavaScript `Array.prototype.join("\n\n---\n\n")`, the separator used
both by the knowledge tool and by the RAG context assembler. -/
def joinSep : List String → String
  | [] => ""
  | [s] => s
  | s :: rest => s ++ "\n\n---\n\n" ++ joinSep rest

/-- Model of `KnowledgeBaseTool._call`: the not-ready state, errors and
the no-results case are all reported IN-BAND as strings; otherwise the
formatted blocks are joined. -/
def toolCallM (st : LanceState) (cfg : KnowledgeConfigM) (hits : List RawHit) :
    String :=
  if st.dbReady = false then "Knowledge base is not ready."
  else
    match queryDocumentsM st hits cfg.similarityThreshold with
    | .error e => "Error searching knowledge base: " ++ lanceErrMsg e
    | .ok [] => "No relevant information found in the knowledge base."
    | .ok results => joinSep (results.map formatDoc)

/-! ## Context assembler (buildRAGPrompt in db/sqlite.ts RAG service) -/


/-- Source entry of the returned `sources` list. -/
structure RAGSource where
  id : String
  title : String
  similarity : ℚ
deriving DecidableEq, Repr

/-- Candidate block `` `[${title}]\n${result.text}` `` of `buildRAGPrompt`. -/
def candOf (r : SearchResultM) : String :=
  "[" ++ titleOrUntitled r.title ++ "]\n" ++ r.text

/-- Greedy assembly loop of `buildRAGPrompt`: stop (break) as soon as the
joined blocks including the next candidate would exceed the budget,
keeping everything accepted so far. -/
def assembleGo (maxLen : Nat) :
    List SearchResultM → List String → List RAGSource →
      List String × List RAGSource
  | [], parts, srcs => (parts, srcs)
  | r :: rest, parts, srcs =>
    if (joinSep (parts ++ [candOf r])).length > maxLen then (parts, srcs)
    else assembleGo maxLen rest (parts ++ [candOf r])
      (srcs ++ [⟨r.id, titleOrUntitled r.title, r.score⟩])

/-- Context string and source list produced by `buildRAGPrompt` from the
ranked results under the `maxContextLength` budget. -/
def buildRAGContext (maxLen : Nat) (results : List SearchResultM) :
    String × List RAGSource :=
  (joinSep (assembleGo maxLen results [] []).1,
    (assembleGo maxLen results [] []).2)

/-! ## Message archive (db/sqlite.ts) -/


/-- Row of the `messages` table. -/
structure MsgRow where
  id : String
  sessionId : String
  role : String
  content : String
  timestamp : String
deriving DecidableEq, Repr

/-- Row of the `chat_bin` table. -/
structure BinRow where
  id : String
  sessionId : String
  role : String
  content : String
  timestamp : String
  archivedAt : String
deriving DecidableEq, Repr

/-- The two tables of the chat store. -/
structure ChatDb where
  messages : List MsgRow
  chat_bin : List BinRow
deriving DecidableEq, Repr

/-- Projection returned by `getMessages` (`StoredMessage`). -/
structure StoredMessageM where
  id : String
  role : String
  content : String
  timestamp : String
deriving DecidableEq, Repr

/-- Insertion step for `ORDER BY timestamp DESC`. -/
def insertByTsDesc (m : MsgRow) : List MsgRow → List MsgRow
  | [] => [m]
  | x :: xs =>
    if x.timestamp < m.timestamp then m :: x :: xs else x :: insertByTsDesc m xs

/-- Sort rows by timestamp, newest first (`ORDER BY timestamp DESC`). -/
def sortByTsDesc (l : List MsgRow) : List MsgRow := l.foldr insertByTsDesc []

/-- Model of `getMessages`: filter the session, order newest first, apply
the `LIMIT`, then `reverse()` back to chronological order. -/
def getMessagesM (sid : String) (lim : Nat) (db : ChatDb) : List StoredMessageM :=
  (((sortByTsDesc (db.messages.filter (fun m => m.sessionId == sid))).take
      lim).reverse).map (fun m => ⟨m.id, m.role, m.content, m.timestamp⟩)

/-- Model of `archiveSession`: copy the session's rows into `chat_bin`
with the archival timestamp attached, then delete them from `messages`. -/
def archiveSessionM (sid archivedAt : String) (db : ChatDb) : ChatDb :=
  { messages := db.messages.filter (fun m => !(m.sessionId == sid))
    chat_bin := db.chat_bin ++
      (db.messages.filter (fun m => m.sessionId == sid)).map
        (fun m => ⟨m.id, m.sessionId, m.role, m.content, m.timestamp, archivedAt⟩) }

theorem isPrefixOf_iff_append {a b : List Char} :
    a.isPrefixOf b = true ↔ ∃ s, b = a ++ s := by
  induction a generalizing b with
  | nil => simp [List.isPrefixOf]
  | cons x xs ih =>
    cases b with
    | nil =>
      constructor
      · intro h; exact absurd h (by simp [List.isPrefixOf])
      · rintro ⟨s, hs⟩; simp at hs
    | cons y ys =>
      simp only [List.isPrefixOf, Bool.and_eq_true, beq_iff_eq, ih,
        List.cons_append, List.cons.injEq]
      constructor
      · rintro ⟨rfl, s, rfl⟩; exact ⟨s, rfl, rfl⟩
      · rintro ⟨s, rfl, rfl⟩; exact ⟨rfl, s, rfl⟩

theorem isPrefixOf_append_self (a s : List Char) :
    a.isPrefixOf (a ++ s) = true :=
  isPrefixOf_iff_append.mpr ⟨s, rfl⟩

theorem isPrefixOf_eq_take {a b : List Char} (h : a.isPrefixOf b = true) :
    a = b.take a.length := by
  obtain ⟨s, rfl⟩ := isPrefixOf_iff_append.mp h
  rw [List.take_left]

/-- Unfolding lemma: when the needle is a prefix, `splitAtSub` answers
immediately. -/
theorem splitAtSub_pos {n h : List Char} (hp : n.isPrefixOf h = true) :
    splitAtSub n h = some ([], h.drop n.length) := by
  cases h with
  | nil => simp only [splitAtSub, hp, if_true, List.drop_nil]
  | cons c rest => simp only [splitAtSub, hp, if_true]

/-- Unfolding lemma: when the needle is not a prefix of a cons cell,
`splitAtSub` recurses on the tail. -/
theorem splitAtSub_neg {n : List Char} {c : Char} {rest : List Char}
    (hp : n.isPrefixOf (c :: rest) = false) :
    splitAtSub n (c :: rest) =
      match splitAtSub n rest with
      | none => none
      | some (b, a) => some (c :: b, a) := by
  simp only [splitAtSub, hp, Bool.false_eq_true, if_false]

theorem splitAtSub_some_eq {n h b a : List Char}
    (hs : splitAtSub n h = some (b, a)) : h = b ++ n ++ a := by
  induction h generalizing b a with
  | nil =>
    cases hp : n.isPrefixOf ([] : List Char) with
    | true =>
      obtain ⟨s, hsplit⟩ := isPrefixOf_iff_append.mp hp
      have hnnil : n = [] := by
        cases n with
        | nil => rfl
        | cons x xs => simp at hsplit
      simp only [splitAtSub, hp, if_true, Option.some.injEq, Prod.mk.injEq] at hs
      obtain ⟨rfl, rfl⟩ := hs
      simp [hnnil]
    | false =>
      simp only [splitAtSub, hp, Bool.false_eq_true, if_false] at hs
      exact absurd hs (by simp)
  | cons c rest ih =>
    cases hp : n.isPrefixOf (c :: rest) with
    | true =>
      rw [splitAtSub_pos hp] at hs
      obtain ⟨s, hsplit⟩ := isPrefixOf_iff_append.mp hp
      simp only [Option.some.injEq, Prod.mk.injEq] at hs
      obtain ⟨rfl, rfl⟩ := hs
      rw [hsplit, List.drop_left, List.nil_append]
    | false =>
      rw [splitAtSub_neg hp] at hs
      cases hrec : splitAtSub n rest with
      | none => rw [hrec] at hs; exact absurd hs (by simp)
      | some p =>
        obtain ⟨b0, a0⟩ := p
        rw [hrec] at hs
        simp only [Option.some.injEq, Prod.mk.injEq] at hs
        obtain ⟨rfl, rfl⟩ := hs
        have := ih hrec
        simp [this]

theorem splitAtSub_none_drop {n h : List Char}
    (hs : splitAtSub n h = none) :
    ∀ p, n.isPrefixOf (h.drop p) = false := by
  induction h with
  | nil =>
    intro p
    cases hp : n.isPrefixOf ([] : List Char) with
    | true =>
      simp only [splitAtSub, hp, if_true] at hs
      exact absurd hs (by simp)
    | false => simpa using hp
  | cons c rest ih =>
    intro p
    cases hp : n.isPrefixOf (c :: rest) with
    | true => rw [splitAtSub_pos hp] at hs; exact absurd hs (by simp)
    | false =>
      have hrec : splitAtSub n rest = none := by
        rw [splitAtSub_neg hp] at hs
        cases hrec : splitAtSub n rest with
        | none => rfl
        | some p0 => obtain ⟨b0, a0⟩ := p0; rw [hrec] at hs; exact absurd hs (by simp)
      cases p with
      | zero => simpa using hp
      | succ p0 => simpa using ih hrec p0

theorem containsBL_eq_false_iff {n h : List Char} :
    containsBL n h = false ↔ splitAtSub n h = none := by
  unfold containsBL
  cases splitAtSub n h <;> simp

theorem containsBL_of_occurrence {n h : List Char} {p : Nat}
    (hp : n.isPrefixOf (h.drop p) = true) : containsBL n h = true := by
  cases hc : containsBL n h with
  | true => rfl
  | false =>
    have hn := containsBL_eq_false_iff.mp hc
    have := splitAtSub_none_drop hn p
    rw [hp] at this
    exact absurd this (by simp)

theorem containsBL_cons_false {n : List Char} {c : Char} {rest : List Char}
    (h : containsBL n (c :: rest) = false) : containsBL n rest = false := by
  rw [containsBL_eq_false_iff] at h ⊢
  cases hp : n.isPrefixOf (c :: rest) with
  | true => rw [splitAtSub_pos hp] at h; exact absurd h (by simp)
  | false =>
    rw [splitAtSub_neg hp] at h
    cases hrec : splitAtSub n rest with
    | none => rfl
    | some p0 => obtain ⟨b0, a0⟩ := p0; rw [hrec] at h; exact absurd h (by simp)

/-- Case analysis for a needle that is a prefix of a concatenation: either
it already fits inside the first part, or it uses up the whole first part
and continues into the second. -/
theorem prefix_split {n s y : List Char} (h : n.isPrefixOf (s ++ y) = true) :
    (n.length ≤ s.length ∧ n.isPrefixOf s = true) ∨
    (s.length < n.length ∧ s.isPrefixOf n = true ∧
      (n.drop s.length).isPrefixOf y = true) := by
  obtain ⟨r, hr⟩ := isPrefixOf_iff_append.mp h
  have htake : (s ++ y).take n.length = n := by
    rw [hr]; exact List.take_left n r
  by_cases hl : n.length ≤ s.length
  · left
    refine ⟨hl, ?_⟩
    rw [List.take_append_eq_append_take] at htake
    have h0 : n.length - s.length = 0 := Nat.sub_eq_zero_of_le hl
    rw [h0, List.take_zero, List.append_nil] at htake
    have hsplit : s = s.take n.length ++ s.drop n.length :=
      (List.take_append_drop _ s).symm
    rw [htake] at hsplit
    exact isPrefixOf_iff_append.mpr ⟨s.drop n.length, hsplit⟩
  · right
    push_neg at hl
    rw [List.take_append_eq_append_take,
      List.take_of_length_le (Nat.le_of_lt hl)] at htake
    refine ⟨hl, isPrefixOf_iff_append.mpr
      ⟨y.take (n.length - s.length), htake.symm⟩, ?_⟩
    have hdrop : n.drop s.length = y.take (n.length - s.length) := by
      conv_lhs => rw [← htake]
      rw [List.drop_left]
    rw [hdrop]
    exact isPrefixOf_iff_append.mpr
      ⟨y.drop (n.length - s.length), (List.take_append_drop _ y).symm⟩

/-- A borderless needle (no proper nonempty piece is both a suffix and a
prefix) splits a haystack of the shape `v ++ n ++ t` exactly at the marked
occurrence, as long as `v` itself is needle-free. -/
theorem splitAtSub_exact {n : List Char} (v t : List Char) (_hn : n ≠ [])
    (hb : ∀ m, m < n.length → 0 < m → n.drop m ≠ n.take (n.length - m))
    (hv : containsBL n v = false) :
    splitAtSub n (v ++ n ++ t) = some (v, t) := by
  induction v with
  | nil =>
    have hp : n.isPrefixOf (n ++ t) = true := isPrefixOf_append_self n t
    rw [List.nil_append, splitAtSub_pos hp, List.drop_left]
  | cons c v0 ih =>
    have hguard : n.isPrefixOf (c :: (v0 ++ n ++ t)) = false := by
      cases hg : n.isPrefixOf (c :: (v0 ++ n ++ t)) with
      | false => rfl
      | true =>
        exfalso
        have hg2 : n.isPrefixOf ((c :: v0) ++ (n ++ t)) = true := by
          simpa [List.append_assoc] using hg
        rcases prefix_split hg2 with ⟨hl, hpre⟩ | ⟨hl, hpre, hrest⟩
        · have hocc : containsBL n (c :: v0) = true :=
            containsBL_of_occurrence (p := 0) (by simpa using hpre)
          rw [hv] at hocc; exact absurd hocc (by simp)
        · rcases prefix_split hrest with ⟨hl2, hpre2⟩ | ⟨hl2, _, _⟩
          · have hm : 0 < (c :: v0).length := by simp
            have heq := isPrefixOf_eq_take hpre2
            rw [List.length_drop] at heq
            exact hb (c :: v0).length hl hm heq
          · rw [List.length_drop] at hl2; omega
    have hv0 : containsBL n v0 = false := containsBL_cons_false hv
    have hstep : splitAtSub n (c :: (v0 ++ n ++ t)) =
        match splitAtSub n (v0 ++ n ++ t) with
        | none => none
        | some (b, a) => some (c :: b, a) := splitAtSub_neg hguard
    calc splitAtSub n ((c :: v0) ++ n ++ t)
        = splitAtSub n (c :: (v0 ++ n ++ t)) := by simp [List.append_assoc]
      _ = some (c :: v0, t) := by rw [hstep, ih hv0]

theorem lastIndexOfSub_none {n : List Char} (hn : n ≠ []) :
    ∀ {h : List Char}, lastIndexOfSub n h = none →
      ∀ p, n.isPrefixOf (h.drop p) = false := by
  intro h
  induction h with
  | nil =>
    intro _ p
    cases n with
    | nil => exact absurd rfl hn
    | cons x xs => simp [List.isPrefixOf]
  | cons c rest ih =>
    intro hnone p
    simp only [lastIndexOfSub] at hnone
    cases hrec : lastIndexOfSub n rest with
    | some i => rw [hrec] at hnone; exact absurd hnone (by simp)
    | none =>
      rw [hrec] at hnone
      cases hp : n.isPrefixOf (c :: rest) with
      | true =>
        simp only [hp, if_true] at hnone
        exact absurd hnone (by simp)
      | false =>
        cases p with
        | zero => simpa using hp
        | succ p0 => simpa using ih hrec p0

theorem lastIndexOfSub_some {n : List Char} (hn : n ≠ []) :
    ∀ {h : List Char} {i : Nat}, lastIndexOfSub n h = some i →
      n.isPrefixOf (h.drop i) = true ∧
        ∀ p, n.isPrefixOf (h.drop p) = true → p ≤ i := by
  intro h
  induction h with
  | nil =>
    intro i hsome
    cases hp : n.isPrefixOf ([] : List Char) with
    | true =>
      obtain ⟨s, hs⟩ := isPrefixOf_iff_append.mp hp
      cases n with
      | nil => exact absurd rfl hn
      | cons x xs => simp at hs
    | false =>
      simp only [lastIndexOfSub, hp, Bool.false_eq_true, if_false] at hsome
      exact absurd hsome (by simp)
  | cons c rest ih =>
    intro i hsome
    simp only [lastIndexOfSub] at hsome
    cases hrec : lastIndexOfSub n rest with
    | some j =>
      rw [hrec] at hsome
      simp only [Option.some.injEq] at hsome
      subst hsome
      obtain ⟨hocc, hmax⟩ := ih hrec
      refine ⟨by simpa using hocc, ?_⟩
      intro p hp
      cases p with
      | zero => omega
      | succ p0 =>
        have := hmax p0 (by simpa using hp)
        omega
    | none =>
      rw [hrec] at hsome
      cases hp : n.isPrefixOf (c :: rest) with
      | true =>
        simp only [hp, if_true, Option.some.injEq] at hsome
        subst hsome
        refine ⟨by simpa using hp, ?_⟩
        intro p hpp
        cases p with
        | zero => exact Nat.le_refl 0
        | succ p0 =>
          have hno := lastIndexOfSub_none hn hrec p0
          rw [List.drop_succ_cons] at hpp
          rw [hpp] at hno
          exact absurd hno (by simp)
      | false =>
        simp only [hp, Bool.false_eq_true, if_false] at hsome
        exact absurd hsome (by simp)

theorem parseCoreF_fuel :
    ∀ f1 : Nat, ∀ f2 h, h.length < f1 → h.length < f2 →
      parseCoreF f1 h = parseCoreF f2 h := by
  intro f1
  induction f1 with
  | zero => intro f2 h h1 _; omega
  | succ f0 ih =>
    intro f2 h _ h2
    cases f2 with
    | zero => omega
    | succ g0 =>
      show parseCoreF (f0 + 1) h = parseCoreF (g0 + 1) h
      simp only [parseCoreF]
      cases hopen : splitAtSub OPENd h with
      | none => rfl
      | some p =>
        obtain ⟨before, after⟩ := p
        cases hclose : splitAtSub CLOSEd after with
        | none => simp only [hclose]
        | some q =>
          obtain ⟨think, rest⟩ := q
          have e1 : h = before ++ OPENd ++ after := splitAtSub_some_eq hopen
          have e2 : after = think ++ CLOSEd ++ rest := splitAtSub_some_eq hclose
          have hlen : rest.length < h.length := by
            have l1 : h.length = before.length + OPENd.length + after.length := by
              rw [e1]; simp only [List.length_append]
            have l2 : after.length = think.length + CLOSEd.length + rest.length := by
              rw [e2]; simp only [List.length_append]
            have : 0 < OPENd.length := by decide
            omega
          have := ih g0 rest (by omega) (by omega)
          simp only [hclose, this]

theorem parseCore_no_open {h : List Char} (h1 : splitAtSub OPENd h = none) :
    parseCore h = (h, [], []) := by
  unfold parseCore
  simp only [parseCoreF, h1]

theorem parseCore_unterminated {h before after : List Char}
    (h1 : splitAtSub OPENd h = some (before, after))
    (h2 : splitAtSub CLOSEd after = none) :
    parseCore h = (before, [], after) := by
  unfold parseCore
  simp only [parseCoreF, h1, h2]

theorem parseCore_step {h before after think rest : List Char}
    (h1 : splitAtSub OPENd h = some (before, after))
    (h2 : splitAtSub CLOSEd after = some (think, rest)) :
    parseCore h =
      ((before ++ (parseCore rest).1, think :: (parseCore rest).2.1,
        (parseCore rest).2.2)) := by
  have e1 : h = before ++ OPENd ++ after := splitAtSub_some_eq h1
  have e2 : after = think ++ CLOSEd ++ rest := splitAtSub_some_eq h2
  have hlen : rest.length < h.length := by
    have l1 : h.length = before.length + OPENd.length + after.length := by
      rw [e1]; simp only [List.length_append]
    have l2 : after.length = think.length + CLOSEd.length + rest.length := by
      rw [e2]; simp only [List.length_append]
    have : 0 < OPENd.length := by decide
    omega
  unfold parseCore
  conv_lhs => simp only [parseCoreF, h1, h2]
  have := parseCoreF_fuel h.length (rest.length + 1) rest hlen (Nat.lt_succ_self _)
  simp only [this]

theorem OPENd_ne_nil : OPENd ≠ [] := by decide

theorem CLOSEd_ne_nil : CLOSEd ≠ [] := by decide

/-- The open marker has no nonempty proper border. -/
theorem openBorderless :
    ∀ m, m < OPENd.length → 0 < m → OPENd.drop m ≠ OPENd.take (OPENd.length - m) := by
  decide

/-- The close marker has no nonempty proper border. -/
theorem closeBorderless :
    ∀ m, m < CLOSEd.length → 0 < m → CLOSEd.drop m ≠ CLOSEd.take (CLOSEd.length - m) := by
  decide

theorem closeDrop_not_prefix_open :
    ∀ m, m < 8 → 0 < m → (CLOSEd.drop m).isPrefixOf OPENd = false := by
  decide

theorem openDrop_not_prefix_close :
    ∀ q, q < 7 → (OPENd.drop q).isPrefixOf CLOSEd = false := by
  decide

/-- No occurrence of the close marker anywhere in `v ++ OPENd ++ t` when
both `v` and `t` are free of it: the close marker cannot straddle the open
marker. -/
theorem close_not_in_mixed {v t : List Char}
    (hv : containsBL CLOSEd v = false) (ht : containsBL CLOSEd t = false) :
    ∀ p, CLOSEd.isPrefixOf ((v ++ (OPENd ++ t)).drop p) = false := by
  intro p
  cases hocc : CLOSEd.isPrefixOf ((v ++ (OPENd ++ t)).drop p) with
  | false => rfl
  | true =>
    exfalso
    rw [List.drop_append_eq_append_drop] at hocc
    rcases prefix_split hocc with ⟨hl, hpre⟩ | ⟨hl, hpre, hrest⟩
    · have hc : containsBL CLOSEd v = true := containsBL_of_occurrence hpre
      rw [hv] at hc; exact absurd hc (by simp)
    · have hcl : CLOSEd.length = 8 := by decide
      have hol : OPENd.length = 7 := by decide
      have hvd : (v.drop p).length = v.length - p := List.length_drop _ _
      by_cases hmz : (v.drop p).length = 0
      · have hq : CLOSEd.isPrefixOf ((OPENd ++ t).drop (p - v.length)) = true := by
          rw [hmz, List.drop_zero] at hrest
          exact hrest
        rw [List.drop_append_eq_append_drop] at hq
        have hod : (OPENd.drop (p - v.length)).length =
            OPENd.length - (p - v.length) := List.length_drop _ _
        rcases prefix_split hq with ⟨hl2, _⟩ | ⟨_, hpre2, hrest2⟩
        · omega
        · by_cases hq7 : p - v.length < 7
          · have hd : (OPENd.drop (p - v.length)).isPrefixOf CLOSEd = false :=
              openDrop_not_prefix_close (p - v.length) hq7
            rw [hpre2] at hd; exact absurd hd (by simp)
          · have hlen0 : (OPENd.drop (p - v.length)).length = 0 := by omega
            rw [hlen0, List.drop_zero] at hrest2
            have hc : containsBL CLOSEd t = true := containsBL_of_occurrence hrest2
            rw [ht] at hc; exact absurd hc (by simp)
      · have hpv : p < v.length := by omega
        have hq0 : p - v.length = 0 := by omega
        rw [hq0, List.drop_zero] at hrest
        have hcd : (CLOSEd.drop (v.drop p).length).length =
            CLOSEd.length - (v.drop p).length := List.length_drop _ _
        rcases prefix_split hrest with ⟨_, hpre2⟩ | ⟨hl2, _, _⟩
        · have hd : (CLOSEd.drop (v.drop p).length).isPrefixOf OPENd = false :=
            closeDrop_not_prefix_open (v.drop p).length (by omega) (by omega)
          rw [hpre2] at hd; exact absurd hd (by simp)
        · omega

/-- In `v ++ OPENd ++ t`, the last close-marker index is `none` and the
last open-marker index is defined, whenever `v` and `t` are close-free. -/
theorem lastIndex_facts_mixed {v t : List Char}
    (hv : containsBL CLOSEd v = false) (ht : containsBL CLOSEd t = false) :
    lastIndexOfSub CLOSEd (v ++ OPENd ++ t) = none ∧
      ∃ o, lastIndexOfSub OPENd (v ++ OPENd ++ t) = some o := by
  have hshape : v ++ OPENd ++ t = v ++ (OPENd ++ t) := by
    simp [List.append_assoc]
  constructor
  · cases hc : lastIndexOfSub CLOSEd (v ++ OPENd ++ t) with
    | none => rfl
    | some c =>
      exfalso
      obtain ⟨hocc, _⟩ := lastIndexOfSub_some CLOSEd_ne_nil hc
      rw [hshape] at hocc
      have := close_not_in_mixed hv ht c
      rw [hocc] at this
      exact absurd this (by simp)
  · cases ho : lastIndexOfSub OPENd (v ++ OPENd ++ t) with
    | some o => exact ⟨o, rfl⟩
    | none =>
      exfalso
      have hoccur : OPENd.isPrefixOf ((v ++ OPENd ++ t).drop v.length) = true := by
        rw [hshape, List.drop_left]
        exact isPrefixOf_append_self OPENd t
      have := lastIndexOfSub_none OPENd_ne_nil ho v.length
      rw [hoccur] at this
      exact absurd this (by simp)

/-- Exact parse of a buffer that ends inside an unterminated open marker. -/
theorem parseCore_open_unterminated {v t : List Char}
    (hv : containsBL OPENd v = false) (ht : containsBL CLOSEd t = false) :
    parseCore (v ++ OPENd ++ t) = (v, [], t) :=
  parseCore_unterminated
    (splitAtSub_exact v t OPENd_ne_nil openBorderless hv)
    (containsBL_eq_false_iff.mp ht)

theorem parseCore_render (segs : List (List Char × List Char)) (vf : List Char)
    (hv : ∀ pr ∈ segs, containsBL OPENd pr.1 = false)
    (ht : ∀ pr ∈ segs, containsBL CLOSEd pr.2 = false)
    (hvf : containsBL OPENd vf = false) :
    parseCore (renderSegs segs vf) =
      (visConcat segs vf, segs.map (fun pr => pr.2), []) := by
  induction segs with
  | nil =>
    simp only [renderSegs, visConcat, List.map_nil]
    exact parseCore_no_open (containsBL_eq_false_iff.mp hvf)
  | cons pr rest ih =>
    obtain ⟨v, t⟩ := pr
    have hshape : renderSegs ((v, t) :: rest) vf =
        v ++ OPENd ++ (t ++ CLOSEd ++ renderSegs rest vf) := by
      simp [renderSegs, List.append_assoc]
    have h1 : splitAtSub OPENd (renderSegs ((v, t) :: rest) vf) =
        some (v, t ++ CLOSEd ++ renderSegs rest vf) := by
      rw [hshape]
      exact splitAtSub_exact v _ OPENd_ne_nil openBorderless
        (hv (v, t) (List.mem_cons_self _ _))
    have h2 : splitAtSub CLOSEd (t ++ CLOSEd ++ renderSegs rest vf) =
        some (t, renderSegs rest vf) :=
      splitAtSub_exact t _ CLOSEd_ne_nil closeBorderless
        (ht (v, t) (List.mem_cons_self _ _))
    rw [parseCore_step h1 h2,
      ih (fun q hq => hv q (List.mem_cons_of_mem _ hq))
        (fun q hq => ht q (List.mem_cons_of_mem _ hq))]
    simp [visConcat]

/-! ## Claims C3 and C4: think-tag parser behaviour -/


/-- Claim C3, counterexample: for the buffer `"<think>abc"`, which ends
inside an unterminated open marker, `parseThinkContent` reports
`isInsideThink = true` but DOES push the trailing partial segment `"abc"`
into the finalized `thinkingParts` list, contradicting the claim that the
partial segment is not included there. -/
theorem parseThink_partial_finalized_cex :
    parseThinkContent "<think>abc" =
      ⟨"", ["abc"], true⟩ ∧
    (parseThinkContent "<think>abc").thinkingParts ≠ [] := by
  constructor
  · decide
  · decide

/-- Claim C3 (amended): for a buffer `v ++ "<think>" ++ t` whose tail `t`
contains no close marker (and whose prefix `v` is marker-free),
`parseThinkContent` returns `isInsideThink = true`, and the trailing
partial segment IS appended to `thinkingParts` when it is nonempty (an
empty partial segment is dropped); it is distinguishable from a completed
segment only through the `isInsideThink` flag, not by its absence from the
list.  The visible response is the trimmed prefix `v`. -/
theorem parseThink_unterminated_amended (v t : List Char)
    (hvO : containsBL OPENd v = false)
    (hvC : containsBL CLOSEd v = false)
    (htC : containsBL CLOSEd t = false) :
    (parseThinkContent (String.mk (v ++ OPENd ++ t))).isInsideThink = true ∧
    (parseThinkContent (String.mk (v ++ OPENd ++ t))).thinkingParts
        = (if t.length > 0 then [String.mk t] else []) ∧
    (parseThinkContent (String.mk (v ++ OPENd ++ t))).response
        = String.mk (trimChars v) := by
  have hpc : parseCore (String.mk (v ++ OPENd ++ t)).data = (v, [], t) :=
    parseCore_open_unterminated hvO htC
  obtain ⟨hnone, o, hsome⟩ := lastIndex_facts_mixed hvC htC
  refine ⟨?_, ?_, ?_⟩
  · simp only [parseThinkContent, hsome, hnone]
  · simp only [parseThinkContent, hpc, List.map_nil, List.nil_append]
  · simp only [parseThinkContent, hpc]

/-- Claim C3 witness at a concrete unterminated buffer. -/
theorem parseThink_unterminated_amended_witness :
    (parseThinkContent (String.mk ("x ".data ++ OPENd ++ "abc".data))).isInsideThink = true ∧
    (parseThinkContent (String.mk ("x ".data ++ OPENd ++ "abc".data))).thinkingParts
        = (if ("abc".data).length > 0 then [String.mk "abc".data] else []) ∧
    (parseThinkContent (String.mk ("x ".data ++ OPENd ++ "abc".data))).response
        = String.mk (trimChars "x ".data) :=
  parseThink_unterminated_amended "x ".data "abc".data
    (by decide) (by decide) (by decide)

/-- Claim C4, counterexample: the balanced buffer `" a<think>t</think>"`
has non-reasoning portion `" a"`, but the parser returns the trimmed
response `"a"`, so the visible response is not exactly the concatenation
of the non-reasoning portions. -/
theorem parseThink_trim_cex :
    parseThinkContent (String.mk (renderSegs [((" a".data), ("t".data))] [])) =
      ⟨"a", ["t"], false⟩ ∧
    String.mk (visConcat [((" a".data), ("t".data))] []) = " a" ∧
    (parseThinkContent (String.mk (renderSegs [((" a".data), ("t".data))] []))).response
      ≠ String.mk (visConcat [((" a".data), ("t".data))] []) := by
  refine ⟨by decide, by decide, by decide⟩

/-- Claim C4 (amended): for every balanced buffer (built from visible
parts free of the open marker and think parts free of the close marker),
the visible response equals the concatenation, in order, of the
non-reasoning portions of the input with leading and trailing whitespace
trimmed (the source applies `response.trim()`), and the number of entries
in `thinkingParts` equals the number of closed marker pairs. -/
theorem parseThink_balanced_amended (segs : List (List Char × List Char)) (vf : List Char)
    (hv : ∀ pr ∈ segs, containsBL OPENd pr.1 = false)
    (ht : ∀ pr ∈ segs, containsBL CLOSEd pr.2 = false)
    (hvf : containsBL OPENd vf = false) :
    (parseThinkContent (String.mk (renderSegs segs vf))).response
        = String.mk (trimChars (visConcat segs vf)) ∧
    (parseThinkContent (String.mk (renderSegs segs vf))).thinkingParts
        = segs.map (fun pr => String.mk pr.2) ∧
    (parseThinkContent (String.mk (renderSegs segs vf))).thinkingParts.length
        = segs.length := by
  have hpc : parseCore (String.mk (renderSegs segs vf)).data
      = (visConcat segs vf, segs.map (fun pr => pr.2), []) :=
    parseCore_render segs vf hv ht hvf
  refine ⟨?_, ?_, ?_⟩
  · simp only [parseThinkContent, hpc]
  · simp only [parseThinkContent, hpc, List.length_nil, gt_iff_lt,
      Nat.lt_irrefl, if_false, List.append_nil, List.map_map]
    rfl
  · simp only [parseThinkContent, hpc, List.length_nil, gt_iff_lt,
      Nat.lt_irrefl, if_false, List.append_nil, List.map_map, List.length_map]

/-- Claim C4 witness at a concrete balanced buffer. -/
theorem parseThink_balanced_amended_witness :
    (parseThinkContent (String.mk (renderSegs [((" a".data), ("t".data))] " b".data))).response
        = String.mk (trimChars (visConcat [((" a".data), ("t".data))] " b".data)) ∧
    (parseThinkContent (String.mk (renderSegs [((" a".data), ("t".data))] " b".data))).thinkingParts
        = [((" a".data), ("t".data))].map (fun pr => String.mk pr.2) ∧
    (parseThinkContent (String.mk (renderSegs [((" a".data), ("t".data))] " b".data))).thinkingParts.length
        = [((" a".data), ("t".data))].length :=
  parseThink_balanced_amended [((" a".data), ("t".data))] " b".data
    (by decide) (by decide) (by decide)

/-- Branch analysis of the orchestrator try block: once classification has
returned, a failing step yields the catch tokens appended after the
already-emitted tokens and the apology as the returned value; with no
failure, the turn returns normally. -/
theorem runAgentStream_ok_spec (env : AgentEnv) (q intent : String)
    (hi : classifyIntent q env.classifyOut = .ok intent) :
    (postClassifyFails env q intent = true →
      ∃ pre, (runAgentStream env q).tokens = pre ++ catchTokens ∧
        (runAgentStream env q).result = .ok apologyMsg) ∧
    (postClassifyFails env q intent = false →
      (runAgentStream env q).result = .ok "") := by
  by_cases hg : intent = "GREETING"
  · cases hf : env.greetOut.fails with
    | true =>
      constructor
      · intro _
        refine ⟨thinkPrefix ++ [" Intent identified: " ++ intent ++ ".",
          " User is greeting. Preparing response...", "</think>\n\n"] ++
          env.greetOut.toks, ?_, ?_⟩
        · simp [runAgentStream, hi, hg, hf, List.append_assoc]
        · simp [runAgentStream, hi, hg, hf]
      · intro hcon
        rw [postClassifyFails, if_pos hg, hf] at hcon
        exact absurd hcon (by simp)
    | false =>
      constructor
      · intro hcon
        rw [postClassifyFails, if_pos hg, hf] at hcon
        exact absurd hcon (by simp)
      · intro _
        simp [runAgentStream, hi, hg, hf]
  · by_cases ho : intent = "OFF_TOPIC"
    · cases hf : env.refuseOut.fails with
      | true =>
        constructor
        · intro _
          refine ⟨thinkPrefix ++ [" Intent identified: " ++ intent ++ ".",
            " User is off-topic. Refusing...", "</think>\n\n"] ++
            env.refuseOut.toks, ?_, ?_⟩
          · simp [runAgentStream, hi, hg, ho, hf, List.append_assoc]
          · simp [runAgentStream, hi, hg, ho, hf]
        · intro hcon
          rw [postClassifyFails, if_neg hg, if_pos ho, hf] at hcon
          exact absurd hcon (by simp)
      | false =>
        constructor
        · intro hcon
          rw [postClassifyFails, if_neg hg, if_pos ho, hf] at hcon
          exact absurd hcon (by simp)
        · intro _
          simp [runAgentStream, hi, hg, ho, hf]
    · cases href : generateSearchQuery q env.refineOut with
      | error e =>
        cases e
        constructor
        · intro _
          refine ⟨thinkPrefix ++ [" Intent identified: " ++ intent ++ ".",
            " Refining search query..."], ?_, ?_⟩
          · simp [runAgentStream, hi, hg, ho, href, List.append_assoc]
          · simp [runAgentStream, hi, hg, ho, href]
        · intro hcon
          simp [postClassifyFails, hg, ho, href] at hcon
      | ok rq =>
        cases htool : env.toolOut rq with
        | error e =>
          cases e
          constructor
          · intro _
            refine ⟨thinkPrefix ++ [" Intent identified: " ++ intent ++ ".",
              " Refining search query...",
              " Query: \"" ++ rq ++ "\"...", " Searching..."], ?_, ?_⟩
            · simp [runAgentStream, hi, hg, ho, href, htool, List.append_assoc]
            · simp [runAgentStream, hi, hg, ho, href, htool]
          · intro hcon
            simp [postClassifyFails, hg, ho, href, htool] at hcon
        | ok sr =>
          cases hs : sentinelHit sr with
          | true =>
            cases hf : (env.respondOut "").fails with
            | true =>
              constructor
              · intro _
                refine ⟨thinkPrefix ++ [" Intent identified: " ++ intent ++ ".",
                  " Refining search query...",
                  " Query: \"" ++ rq ++ "\"...", " Searching...",
                  " No relevant info found.", "</think>\n\n"] ++
                  (env.respondOut "").toks, ?_, ?_⟩
                · simp [runAgentStream, hi, hg, ho, href, htool, hs, hf,
                    List.append_assoc]
                · simp [runAgentStream, hi, hg, ho, href, htool, hs, hf]
              · intro hcon
                simp [postClassifyFails, hg, ho, href, htool, hs, hf] at hcon
            | false =>
              constructor
              · intro hcon
                simp [postClassifyFails, hg, ho, href, htool, hs, hf] at hcon
              · intro _
                simp [runAgentStream, hi, hg, ho, href, htool, hs, hf]
          | false =>
            cases hf : (env.respondOut sr).fails with
            | true =>
              constructor
              · intro _
                refine ⟨thinkPrefix ++ [" Intent identified: " ++ intent ++ ".",
                  " Refining search query...",
                  " Query: \"" ++ rq ++ "\"...", " Searching...",
                  " Found relevant information.", "</think>\n\n"] ++
                  (env.respondOut sr).toks, ?_, ?_⟩
                · simp [runAgentStream, hi, hg, ho, href, htool, hs, hf,
                    List.append_assoc]
                · simp [runAgentStream, hi, hg, ho, href, htool, hs, hf]
              · intro hcon
                simp [postClassifyFails, hg, ho, href, htool, hs, hf] at hcon
            | false =>
              constructor
              · intro hcon
                simp [postClassifyFails, hg, ho, href, htool, hs, hf] at hcon
              · intro _
                simp [runAgentStream, hi, hg, ho, href, htool, hs, hf]

/-! ## Claims C1, C2 and C7: router and orchestrator failure semantics -/


/-- Claim C1, counterexample: the query `"hi zenbot"` contains the
in-domain keyword `"zenbot"`, yet with model output `"GREETING"` the
router returns `GREETING`, not `KNOWLEDGE` (the model-label match runs
before the keyword fallback); and with a thrown model call the router
itself throws instead of returning `OFF_TOPIC` or `KNOWLEDGE`. -/
theorem classifyIntent_keyword_override_cex :
    hasDomainKeyword "hi zenbot" = true ∧
    classifyIntent "hi zenbot" (.ok (some "GREETING")) = .ok "GREETING" ∧
    classifyIntent "hi zenbot" (.ok (some "GREETING")) ≠ .ok "KNOWLEDGE" ∧
    classifyIntent "hi zenbot" (.error ()) = .error () := by
  refine ⟨by decide, by decide, by decide, rfl⟩

/-- Claim C1 (amended): the keyword fallback forces `KNOWLEDGE` only when
the model call succeeded and its normalized output does not contain
`GREETING` (a model-produced `GREETING` wins over the keyword, and
`KNOWLEDGE`-containing output agrees with the fallback anyway); and when
the model call throws, `classifyIntent` propagates the exception rather
than returning `OFF_TOPIC` — classification can hard-fail. -/
theorem classifyIntent_fallback_amended (q : String) (c : Option String)
    (hkw : hasDomainKeyword q = true)
    (hng : containsS "GREETING" (normalizeRouterOutput c) = false) :
    classifyIntent q (.ok c) = .ok "KNOWLEDGE" ∧
    classifyIntent q (.error ()) = .error () := by
  refine ⟨?_, rfl⟩
  unfold classifyIntent routerLabel
  cases hkn : containsS "KNOWLEDGE" (normalizeRouterOutput c) <;>
    simp [hng, hkn, hkw]

/-- Claim C1 witness: concrete keyword query with unrecognized model
output. -/
theorem classifyIntent_fallback_amended_witness :
    classifyIntent "what is zenlise" (.ok (some "banana")) = .ok "KNOWLEDGE" ∧
    classifyIntent "what is zenlise" (.error ()) = .error () :=
  classifyIntent_fallback_amended "what is zenlise" (some "banana")
    (by decide) (by decide)

/-- Claim C2, counterexample: with a throwing model call during intent
classification (which the source invokes BEFORE its try block),
`runAgentStream` lets the exception escape: the result is the error, no
apology token is emitted, and only the two think-prefix tokens were sent
to the sink. -/
theorem runAgentStream_classify_uncaught_cex :
    runAgentStream ⟨.error (), .ok none, fun _ => .ok "", ⟨[], false⟩,
        ⟨[], false⟩, fun _ => ⟨[], false⟩⟩ "hi"
      = ⟨thinkPrefix, .error (), []⟩ ∧
    apologyMsg ∉ (runAgentStream ⟨.error (), .ok none, fun _ => .ok "",
        ⟨[], false⟩, ⟨[], false⟩, fun _ => ⟨[], false⟩⟩ "hi").tokens := by
  refine ⟨by decide, by decide⟩

/-- Claim C2 (amended): an exception thrown during intent classification
escapes `runAgentStream` uncaught (it is handled by the HTTP route handler
instead), with no apology token; any exception raised AFTER classification
(greeting, refusal, refinement, search, generation) is caught exactly once
at the top level: the already-emitted tokens are kept as a prefix, the
catch appends its note, a closing marker and a single apology string, and
the turn returns the apology; with no failure the turn returns normally. -/
theorem runAgentStream_error_handling_amended (env : AgentEnv) (q : String) :
    ((runAgentStream env q).result = .error () ↔ env.classifyOut = .error ()) ∧
    (env.classifyOut = .error () →
      runAgentStream env q = ⟨thinkPrefix, .error (), []⟩) ∧
    (∀ intent, classifyIntent q env.classifyOut = .ok intent →
      (postClassifyFails env q intent = true →
        ∃ pre, (runAgentStream env q).tokens = pre ++ catchTokens ∧
          (runAgentStream env q).result = .ok apologyMsg) ∧
      (postClassifyFails env q intent = false →
        (runAgentStream env q).result = .ok "")) := by
  refine ⟨?_, ?_, ?_⟩
  · cases hc : env.classifyOut with
    | error e =>
      cases e
      have hcl : classifyIntent q env.classifyOut = .error () := by rw [hc]; rfl
      simp [runAgentStream, hcl]
    | ok c =>
      have hcl : classifyIntent q env.classifyOut = .ok (routerLabel q c) := by
        rw [hc]; rfl
      obtain ⟨h1, h2⟩ := runAgentStream_ok_spec env q (routerLabel q c) hcl
      constructor
      · intro hres
        cases hpf : postClassifyFails env q (routerLabel q c) with
        | true =>
          obtain ⟨pre, _, hres2⟩ := h1 hpf
          rw [hres] at hres2
          exact absurd hres2 (by simp)
        | false =>
          have hres2 := h2 hpf
          rw [hres] at hres2
          exact absurd hres2 (by simp)
      · intro hco
        exact absurd hco (by simp)
  · intro hco
    have hcl : classifyIntent q env.classifyOut = .error () := by rw [hco]; rfl
    simp [runAgentStream, hcl]
  · intro intent hi
    exact runAgentStream_ok_spec env q intent hi

/-- Claim C2 witness: concrete turn where the greeting generator throws
after classification succeeded; the apology tail is appended. -/
theorem runAgentStream_error_handling_amended_witness :
    ∃ pre, (runAgentStream ⟨.ok (some "GREETING"), .ok none, fun _ => .ok "",
        ⟨["hi"], true⟩, ⟨[], false⟩, fun _ => ⟨[], false⟩⟩ "hello").tokens
        = pre ++ catchTokens ∧
      (runAgentStream ⟨.ok (some "GREETING"), .ok none, fun _ => .ok "",
        ⟨["hi"], true⟩, ⟨[], false⟩, fun _ => ⟨[], false⟩⟩ "hello").result
        = .ok apologyMsg :=
  ((runAgentStream_error_handling_amended
      ⟨.ok (some "GREETING"), .ok none, fun _ => .ok "",
        ⟨["hi"], true⟩, ⟨[], false⟩, fun _ => ⟨[], false⟩⟩ "hello").2.2
    "GREETING" (by decide)).1 (by decide)

/-- Claim C7, counterexample: with intent `KNOWLEDGE` and a throwing
refinement call, the turn does NOT continue with the original query —
`generateSearchQuery` has no try/catch, so the exception reaches the
orchestrator catch, which ends the turn with the apology and no
generation call at all. -/
theorem refine_failure_fatal_cex :
    generateSearchQuery "tell me" (.error ()) = .error () ∧
    generateSearchQuery "tell me" (.error ()) ≠ .ok "tell me" ∧
    runAgentStream ⟨.ok (some "KNOWLEDGE"), .error (), fun _ => .ok "doc",
        ⟨[], false⟩, ⟨[], false⟩, fun _ => ⟨["ans"], false⟩⟩ "tell me"
      = ⟨thinkPrefix ++ [" Intent identified: KNOWLEDGE.",
          " Refining search query..."] ++ catchTokens,
        .ok apologyMsg, []⟩ := by
  refine ⟨rfl, by decide, by decide⟩

/-- Claim C7 (amended): refinement falls back to the original query only
for unusable (non-string) model content, in which case the turn continues
and retrieval runs with the original query; a string reply is trimmed and
used; but a THROWN refinement call propagates to the orchestrator
top-level catch, which ends the turn with the apology and no generation —
refinement failure by exception IS fatal to the turn's normal flow. -/
theorem generateSearchQuery_fallback_amended (env : AgentEnv) (q s sr : String) :
    (generateSearchQuery q (.ok none) = .ok q) ∧
    (generateSearchQuery q (.ok (some s)) = .ok (trimS s)) ∧
    (generateSearchQuery q (.error ()) = .error ()) ∧
    (env.refineOut = .error () →
      classifyIntent q env.classifyOut = .ok "KNOWLEDGE" →
      (runAgentStream env q).result = .ok apologyMsg ∧
        (runAgentStream env q).gens = []) ∧
    (env.refineOut = .ok none →
      classifyIntent q env.classifyOut = .ok "KNOWLEDGE" →
      env.toolOut q = .ok sr → sentinelHit sr = false →
      (runAgentStream env q).gens = [GenCall.response q sr]) := by
  refine ⟨rfl, rfl, rfl, ?_, ?_⟩
  · intro h1 h2
    have href : generateSearchQuery q env.refineOut = .error () := by
      rw [h1]; rfl
    constructor <;> simp [runAgentStream, h2, href]
  · intro h1 h2 h3 h4
    have href : generateSearchQuery q env.refineOut = .ok q := by
      rw [h1]; rfl
    cases hf : (env.respondOut sr).fails <;>
      simp [runAgentStream, h2, href, h3, h4, hf]

/-- Claim C7 witness: concrete environments for the fatal-throw case and
the non-string-content continuation case. -/
theorem generateSearchQuery_fallback_amended_witness :
    ((runAgentStream ⟨.ok (some "KNOWLEDGE"), .ok none, fun _ => .ok "docs",
        ⟨[], false⟩, ⟨[], false⟩, fun _ => ⟨["ans"], false⟩⟩ "my query").gens
      = [GenCall.response "my query" "docs"]) :=
  (generateSearchQuery_fallback_amended
      ⟨.ok (some "KNOWLEDGE"), .ok none, fun _ => .ok "docs",
        ⟨[], false⟩, ⟨[], false⟩, fun _ => ⟨["ans"], false⟩⟩
      "my query" "" "docs").2.2.2.2 rfl (by decide) rfl (by decide)

/-! ## Claims C8 and C6: retrieval gateway -/


/-- Claim C8 (confirmed): the similarity attached to a converted hit is
`max(0, 1 - distance^2/2)`, always lies in `[0, 1]`, and `queryDocuments`
keeps exactly the hits whose score is not below `minSimilarity`, in the
store's nearest-first order (an order-preserving filter of the converted
list). -/
theorem similarity_conversion_spec :
    (∀ (r : RawHit) (d : ℚ), r.distance = some d →
      hitScore r = max 0 (1 - d ^ 2 / 2)) ∧
    (∀ r : RawHit, 0 ≤ hitScore r ∧ hitScore r ≤ 1) ∧
    (∀ (minSim : ℚ) (hits : List RawHit),
      processHits minSim hits =
        (hits.map convertHit).filter (fun s => !decide (s.score < minSim))) := by
  refine ⟨?_, ?_, ?_⟩
  · intro r d h
    simp only [hitScore, h, Option.getD_some, pow_two]
  · intro r
    simp only [hitScore]
    constructor
    · exact le_max_left _ _
    · exact max_le (by norm_num)
        (by nlinarith [mul_self_nonneg (r.distance.getD 0)])
  · intro minSim hits
    induction hits with
    | nil => rfl
    | cons r rest ih =>
      by_cases hlt : hitScore r < minSim
      · simp [processHits, hlt, ih, convertHit]
      · simp [processHits, hlt, ih, convertHit]

/-- Claim C8 witness at a concrete distance and hit list. -/
theorem similarity_conversion_spec_witness :
    hitScore ⟨"d1", "txt", none, some (1/2 : ℚ)⟩
        = max 0 (1 - (1/2 : ℚ) ^ 2 / 2) ∧
    (0 ≤ hitScore ⟨"d1", "txt", none, some (1/2 : ℚ)⟩ ∧
      hitScore ⟨"d1", "txt", none, some (1/2 : ℚ)⟩ ≤ 1) ∧
    processHits (1/2 : ℚ) [⟨"d1", "txt", none, some (1/2 : ℚ)⟩]
        = ([⟨"d1", "txt", none, some (1/2 : ℚ)⟩].map convertHit).filter
            (fun s => !decide (s.score < (1/2 : ℚ))) :=
  ⟨similarity_conversion_spec.1 _ _ rfl,
    similarity_conversion_spec.2.1 _,
    similarity_conversion_spec.2.2 _ _⟩

/-- Claim C6, counterexample: with the vector service not ready, `search`
returns an empty OK result and `remove` returns OK unit — both silently
succeed instead of failing fast with a store-not-ready error. -/
theorem storeNotReady_silent_cex :
    queryDocumentsM ⟨false, false, false⟩ [] 0 = .ok [] ∧
    deleteDocumentM ⟨false, false, false⟩ "doc1" = .ok () := by
  exact ⟨rfl, rfl⟩

/-- Claim C6 (amended): with no opened table, `search` silently returns
the empty result list and `remove` silently returns; only `upsert` can
fail (it re-runs initialization and propagates its failure), and the
knowledge tool reports the not-ready state in-band as the string
`"Knowledge base is not ready."` rather than raising. -/
theorem storeNotReady_amended (st : LanceState) (hits : List RawHit)
    (minSim : ℚ) (id : String) (cfg : KnowledgeConfigM)
    (ht : st.tableReady = false) :
    queryDocumentsM st hits minSim = .ok [] ∧
    deleteDocumentM st id = .ok () ∧
    (st.dbReady = false →
      addDocumentM st false = .error .initFailed ∧
      toolCallM st cfg hits = "Knowledge base is not ready.") := by
  refine ⟨?_, ?_, ?_⟩
  · simp [queryDocumentsM, ht]
  · simp [deleteDocumentM, ht]
  · intro hd
    constructor
    · simp [addDocumentM, hd]
    · simp [toolCallM, hd]

/-- Claim C6 witness at the fully-uninitialized state. -/
theorem storeNotReady_amended_witness :
    queryDocumentsM ⟨false, false, false⟩ [] (1/2 : ℚ) = .ok [] ∧
    deleteDocumentM ⟨false, false, false⟩ "doc9" = .ok () ∧
    ((⟨false, false, false⟩ : LanceState).dbReady = false →
      addDocumentM ⟨false, false, false⟩ false = .error .initFailed ∧
      toolCallM ⟨false, false, false⟩ ⟨3, 1/2, 2000⟩ [] = "Knowledge base is not ready.") :=
  storeNotReady_amended ⟨false, false, false⟩ [] (1/2 : ℚ) "doc9" ⟨3, 1/2, 2000⟩ rfl

/-! ## Claim C5: context assembler -/


theorem joinSep_head_length (s : String) (l : List String) :
    s.length ≤ (joinSep (s :: l)).length := by
  cases l with
  | nil => exact Nat.le_refl _
  | cons x xs =>
    show s.length ≤ ((s ++ "\n\n---\n\n") ++ joinSep (x :: xs)).length
    have hsep : ("\n\n---\n\n" : String).length = 7 := by decide
    simp only [String.length_append]
    omega

theorem candOf_length_ge (r : SearchResultM) : 3 ≤ (candOf r).length := by
  have h1 : ("[" : String).length = 1 := by decide
  have h2 : ("]\n" : String).length = 2 := by decide
  simp only [candOf, String.length_append]
  omega

theorem assembleGo_spec (maxLen : Nat) :
    ∀ (results : List SearchResultM) (parts : List String) (srcs : List RAGSource),
      (joinSep parts).length ≤ maxLen →
      ∃ k, k ≤ results.length ∧
        (assembleGo maxLen results parts srcs).1
          = parts ++ (results.take k).map candOf ∧
        (assembleGo maxLen results parts srcs).2
          = srcs ++ (results.take k).map
              (fun r => (⟨r.id, titleOrUntitled r.title, r.score⟩ : RAGSource)) ∧
        (joinSep (assembleGo maxLen results parts srcs).1).length ≤ maxLen ∧
        (k = results.length ∨
          maxLen < (joinSep (parts ++ ((results.take (k + 1)).map candOf))).length) := by
  intro results
  induction results with
  | nil =>
    intro parts srcs hp
    exact ⟨0, by simp, by simp [assembleGo], by simp [assembleGo],
      by simpa [assembleGo] using hp, Or.inl rfl⟩
  | cons r rest ih =>
    intro parts srcs hp
    by_cases hov : (joinSep (parts ++ [candOf r])).length > maxLen
    · refine ⟨0, by simp, ?_, ?_, ?_, Or.inr ?_⟩
      · simp [assembleGo, hov]
      · simp [assembleGo, hov]
      · simp only [assembleGo, if_pos hov]
        exact hp
      · simpa using hov
    · have hle : (joinSep (parts ++ [candOf r])).length ≤ maxLen :=
        Nat.le_of_not_lt hov
      obtain ⟨k, hk, h1, h2, h3, h4⟩ :=
        ih (parts ++ [candOf r]) (srcs ++ [⟨r.id, titleOrUntitled r.title, r.score⟩]) hle
      have hstep : assembleGo maxLen (r :: rest) parts srcs
          = assembleGo maxLen rest (parts ++ [candOf r])
              (srcs ++ [⟨r.id, titleOrUntitled r.title, r.score⟩]) := by
        simp only [assembleGo, if_neg hov]
      refine ⟨k + 1, by simpa using Nat.succ_le_succ hk, ?_, ?_, ?_, ?_⟩
      · rw [hstep, h1]
        simp [List.append_assoc]
      · rw [hstep, h2]
        simp [List.append_assoc]
      · rw [hstep]
        exact h3
      · rcases h4 with h4 | h4
        · left; simp [h4]
        · right
          simpa [List.append_assoc] using h4

/-- Claim C5 (confirmed): the assembler includes blocks greedily in rank
order and breaks at the first block whose inclusion would push the joined
string over the budget, keeping the previously accepted blocks; the
returned context length never exceeds the budget; and the context is
empty exactly when the input is empty or the very first candidate block
alone exceeds the budget. -/
theorem buildRAGPrompt_budget (maxLen : Nat) (results : List SearchResultM) :
    (buildRAGContext maxLen results).1.length ≤ maxLen ∧
    ((buildRAGContext maxLen results).1 = "" ↔
      (results = [] ∨
        ∃ r0 rs, results = r0 :: rs ∧ maxLen < (candOf r0).length)) ∧
    (∃ k, k ≤ results.length ∧
      (buildRAGContext maxLen results).1 = joinSep ((results.take k).map candOf) ∧
      (buildRAGContext maxLen results).2 = (results.take k).map
        (fun r => (⟨r.id, titleOrUntitled r.title, r.score⟩ : RAGSource)) ∧
      (k = results.length ∨
        maxLen < (joinSep ((results.take (k + 1)).map candOf)).length)) := by
  obtain ⟨k, hk, h1, h2, h3, h4⟩ :=
    assembleGo_spec maxLen results [] [] (by simp [joinSep])
  have hctx : (buildRAGContext maxLen results).1
      = joinSep ((results.take k).map candOf) := by
    simp only [buildRAGContext]
    rw [h1, List.nil_append]
  have hsrc : (buildRAGContext maxLen results).2
      = (results.take k).map
          (fun r => (⟨r.id, titleOrUntitled r.title, r.score⟩ : RAGSource)) := by
    simp only [buildRAGContext]
    rw [h2, List.nil_append]
  refine ⟨?_, ?_, k, hk, hctx, hsrc, by simpa using h4⟩
  · have := h3
    rw [h1, List.nil_append] at this
    rw [hctx]
    exact this
  · constructor
    · intro hempty
      cases results with
      | nil => exact Or.inl rfl
      | cons r0 rs =>
        refine Or.inr ⟨r0, rs, rfl, ?_⟩
        cases k with
        | zero =>
          rcases h4 with h4 | h4
          · simp at h4
          · rw [List.nil_append] at h4
            simpa [joinSep] using h4
        | succ k0 =>
          exfalso
          have hlen0 : (buildRAGContext maxLen (r0 :: rs)).1.length = 0 := by
            rw [hempty]; rfl
          rw [hctx] at hlen0
          have htk : (r0 :: rs).take (k0 + 1) = r0 :: rs.take k0 := rfl
          rw [htk] at hlen0
          simp only [List.map_cons] at hlen0
          have hge := joinSep_head_length (candOf r0) ((rs.take k0).map candOf)
          have hc3 := candOf_length_ge r0
          omega
    · intro hcase
      rcases hcase with rfl | ⟨r0, rs, rfl, hbig⟩
      · rfl
      · have hover : (joinSep ([] ++ [candOf r0])).length > maxLen := by
          simpa [joinSep] using hbig
        simp only [buildRAGContext, assembleGo, if_pos hover]
        rfl

/-- Claim C5 witness at a concrete result list and budget. -/
theorem buildRAGPrompt_budget_witness :
    (buildRAGContext 100 [⟨"i1", "hello", none, 1⟩]).1.length ≤ 100 ∧
    ((buildRAGContext 100 [⟨"i1", "hello", none, 1⟩]).1 = "" ↔
      (([⟨"i1", "hello", none, 1⟩] : List SearchResultM) = [] ∨
        ∃ r0 rs, ([⟨"i1", "hello", none, 1⟩] : List SearchResultM) = r0 :: rs ∧
          100 < (candOf r0).length)) ∧
    (∃ k, k ≤ ([⟨"i1", "hello", none, 1⟩] : List SearchResultM).length ∧
      (buildRAGContext 100 [⟨"i1", "hello", none, 1⟩]).1
        = joinSep ((([⟨"i1", "hello", none, 1⟩] : List SearchResultM).take k).map candOf) ∧
      (buildRAGContext 100 [⟨"i1", "hello", none, 1⟩]).2
        = (([⟨"i1", "hello", none, 1⟩] : List SearchResultM).take k).map
            (fun r => (⟨r.id, titleOrUntitled r.title, r.score⟩ : RAGSource)) ∧
      (k = ([⟨"i1", "hello", none, 1⟩] : List SearchResultM).length ∨
        100 < (joinSep ((([⟨"i1", "hello", none, 1⟩] : List SearchResultM).take (k + 1)).map candOf)).length)) :=
  buildRAGPrompt_budget 100 [⟨"i1", "hello", none, 1⟩]

/-! ## Claim C9: session archiving -/


/-- Claim C9 (confirmed): after `archiveSession`, listing the session's
active messages yields the empty list, and `chat_bin` contains every
message that was in the active log immediately before the call, with id,
session, role, content and timestamp unchanged (plus the archival
timestamp). -/
theorem archiveSession_spec (db : ChatDb) (sid archivedAt : String) (lim : Nat) :
    getMessagesM sid lim (archiveSessionM sid archivedAt db) = [] ∧
    (∀ m ∈ db.messages, m.sessionId = sid →
      (⟨m.id, m.sessionId, m.role, m.content, m.timestamp, archivedAt⟩ : BinRow)
        ∈ (archiveSessionM sid archivedAt db).chat_bin) := by
  constructor
  · have hfil : (db.messages.filter (fun m => !(m.sessionId == sid))).filter
        (fun m => m.sessionId == sid) = [] := by
      rw [List.filter_filter]
      apply List.filter_eq_nil_iff.mpr
      intro a _
      cases h : a.sessionId == sid <;> simp [h]
    simp only [getMessagesM, archiveSessionM, hfil, sortByTsDesc, List.foldr_nil,
      List.take_nil, List.reverse_nil, List.map_nil]
  · intro m hm hs
    simp only [archiveSessionM]
    apply List.mem_append_right
    exact List.mem_map_of_mem _ (List.mem_filter.mpr ⟨hm, by simp [hs]⟩)

/-- Claim C9 witness at a concrete two-session store. -/
theorem archiveSession_spec_witness :
    getMessagesM "s1" 50 (archiveSessionM "s1" "2024-01-02T00:00:00Z"
        ⟨[⟨"m1", "s1", "user", "hi", "2024-01-01T00:00:00Z"⟩,
          ⟨"m2", "s2", "user", "yo", "2024-01-01T00:00:01Z"⟩], []⟩) = [] ∧
    (∀ m ∈ (⟨[⟨"m1", "s1", "user", "hi", "2024-01-01T00:00:00Z"⟩,
          ⟨"m2", "s2", "user", "yo", "2024-01-01T00:00:01Z"⟩], []⟩ : ChatDb).messages,
      m.sessionId = "s1" →
      (⟨m.id, m.sessionId, m.role, m.content, m.timestamp,
        "2024-01-02T00:00:00Z"⟩ : BinRow)
        ∈ (archiveSessionM "s1" "2024-01-02T00:00:00Z"
            ⟨[⟨"m1", "s1", "user", "hi", "2024-01-01T00:00:00Z"⟩,
              ⟨"m2", "s2", "user", "yo", "2024-01-01T00:00:01Z"⟩], []⟩).chat_bin) :=
  archiveSession_spec _ "s1" "2024-01-02T00:00:00Z" 50

/-! ## Claim C10: in-band sentinel discards genuine grounding -/


theorem containsBL_append_of_right {n y : List Char} (x : List Char)
    (h : containsBL n y = true) : containsBL n (x ++ y) = true := by
  cases hsp : splitAtSub n y with
  | none =>
    rw [containsBL_eq_false_iff.mpr hsp] at h
    exact absurd h (by simp)
  | some p =>
    obtain ⟨b, a⟩ := p
    have hy : y = b ++ n ++ a := splitAtSub_some_eq hsp
    apply containsBL_of_occurrence (p := (x ++ b).length)
    have hx : x ++ y = (x ++ b) ++ (n ++ a) := by
      rw [hy]; simp [List.append_assoc]
    rw [hx, List.drop_left]
    exact isPrefixOf_append_self n a

theorem containsBL_append_of_left {n x : List Char} (y : List Char)
    (h : containsBL n x = true) : containsBL n (x ++ y) = true := by
  cases hsp : splitAtSub n x with
  | none =>
    rw [containsBL_eq_false_iff.mpr hsp] at h
    exact absurd h (by simp)
  | some p =>
    obtain ⟨b, a⟩ := p
    have hxd : x = b ++ n ++ a := splitAtSub_some_eq hsp
    apply containsBL_of_occurrence (p := b.length)
    have hx : x ++ y = b ++ (n ++ (a ++ y)) := by
      rw [hxd]; simp [List.append_assoc]
    rw [hx, List.drop_left]
    exact isPrefixOf_append_self n (a ++ y)

theorem containsS_append_of_right (n x y : String)
    (h : containsS n y = true) : containsS n (x ++ y) = true := by
  unfold containsS at h ⊢
  rw [String.data_append]
  exact containsBL_append_of_right x.data h

theorem containsS_append_of_left (n x y : String)
    (h : containsS n x = true) : containsS n (x ++ y) = true := by
  unfold containsS at h ⊢
  rw [String.data_append]
  exact containsBL_append_of_left y.data h

/-- A substring of one joined entry is a substring of the whole join. -/
theorem containsS_joinSep {n : String} (l : List String) (s : String)
    (hs : s ∈ l) (h : containsS n s = true) :
    containsS n (joinSep l) = true := by
  induction l with
  | nil => exact absurd hs (by simp)
  | cons x t ih =>
    cases t with
    | nil =>
      have : s = x := by simpa using hs
      subst this
      simpa [joinSep] using h
    | cons y ts =>
      have hjoin : joinSep (x :: y :: ts)
          = (x ++ "\n\n---\n\n") ++ joinSep (y :: ts) := by
        show x ++ "\n\n---\n\n" ++ joinSep (y :: ts)
          = (x ++ "\n\n---\n\n") ++ joinSep (y :: ts)
        rfl
      rcases List.mem_cons.mp hs with rfl | hmem
      · rw [hjoin]
        apply containsS_append_of_left
        exact containsS_append_of_left _ _ _ h
      · rw [hjoin]
        exact containsS_append_of_right _ _ _ (ih hmem)

/-- Claim C10 (confirmed): both entry modes test the joined tool result
for the substring `"No relevant information"` (or the prefix `"Error"`)
and, on a hit, discard the entire retrieved context, calling the response
generator with the EMPTY context — so a genuinely retrieved document whose
content contains the sentinel phrase silently loses its grounding. -/
theorem sentinel_discards_grounding (env : AgentEnv) (q rq : String)
    (rs : List SearchResultM) (r : SearchResultM)
    (hmem : r ∈ rs)
    (hsent : containsS "No relevant information" r.text = true)
    (hfast : env.toolOut q = .ok (joinSep (rs.map formatDoc)))
    (hcls : classifyIntent q env.classifyOut = .ok "KNOWLEDGE")
    (href : generateSearchQuery q env.refineOut = .ok rq)
    (htool : env.toolOut rq = .ok (joinSep (rs.map formatDoc))) :
    (runFastStream env q).gens = [GenCall.response q ""] ∧
    (runAgentStream env q).gens = [GenCall.response q ""] := by
  have hfmt : containsS "No relevant information" (formatDoc r) = true := by
    unfold formatDoc
    exact containsS_append_of_right _ _ _ hsent
  have hsj : containsS "No relevant information" (joinSep (rs.map formatDoc)) = true :=
    containsS_joinSep (rs.map formatDoc) (formatDoc r)
      (List.mem_map_of_mem _ hmem) hfmt
  have hhit : sentinelHit (joinSep (rs.map formatDoc)) = true := by
    simp [sentinelHit, hsj]
  constructor
  · cases hf : (env.respondOut "").fails <;>
      simp [runFastStream, hfast, hhit, hf]
  · cases hf : (env.respondOut "").fails <;>
      simp [runAgentStream, hcls, href, htool, hhit, hf]

/-- Claim C10 witness: one genuinely stored document whose content merely
mentions the sentinel phrase makes both modes generate with empty
context. -/
theorem sentinel_discards_grounding_witness :
    (runFastStream ⟨.ok (some "KNOWLEDGE"), .ok (some "rq"),
        fun _ => .ok (joinSep (([⟨"d1", "Note: No relevant information should be trusted blindly.", none, 1⟩] : List SearchResultM).map formatDoc)),
        ⟨[], false⟩, ⟨[], false⟩, fun _ => ⟨["out"], false⟩⟩ "my question").gens
      = [GenCall.response "my question" ""] ∧
    (runAgentStream ⟨.ok (some "KNOWLEDGE"), .ok (some "rq"),
        fun _ => .ok (joinSep (([⟨"d1", "Note: No relevant information should be trusted blindly.", none, 1⟩] : List SearchResultM).map formatDoc)),
        ⟨[], false⟩, ⟨[], false⟩, fun _ => ⟨["out"], false⟩⟩ "my question").gens
      = [GenCall.response "my question" ""] :=
  sentinel_discards_grounding
    ⟨.ok (some "KNOWLEDGE"), .ok (some "rq"),
      fun _ => .ok (joinSep (([⟨"d1", "Note: No relevant information should be trusted blindly.", none, 1⟩] : List SearchResultM).map formatDoc)),
      ⟨[], false⟩, ⟨[], false⟩, fun _ => ⟨["out"], false⟩⟩
    "my question" "rq"
    [⟨"d1", "Note: No relevant information should be trusted blindly.", none, 1⟩]
    ⟨"d1", "Note: No relevant information should be trusted blindly.", none, 1⟩
    (by decide) (by decide) rfl (by decide) (by decide) rfl
